import Mathlib

/-!
Verification of the submission-validation and aggregation pipeline of the
`wizard-of-oss` Slack application.

The development shallowly embeds the relevant Rust code:

* `src/models.rs` — the `OpenSourceAttachment` record, its encoding into
  Slack attachment fields (`From<OpenSourceAttachment> for
  Vec<SlackMessageAttachmentFieldObject>`) and the decoder
  (`TryFrom<Vec<SlackMessageAttachmentFieldObject>>`).
* `src/request_handlers.rs` — the pure validation core of the
  `ViewSubmission` branch of `interaction_event_handler`.
* `src/errors.rs` — the `AppError` type and the blanket
  `From<anyhow::Error>` conversion into `InternalServerError`.
* `src/slack.rs` — the aggregation loop of `report_user_stats`.

Machine integers (`i16`) are modelled as `Int` with explicit range checks
and wrap-around where the Rust code can overflow.  External library
functions (`str::parse::<i16>`, `url::Url::parse`, `HashMap`) are modelled
by executable Lean functions documented at their definitions.
-/

namespace Woss

/-- Model of `slack_morphism::SlackMessageAttachmentFieldObject`: an
attachment field with optional title, optional value and optional
"short" display flag. -/
structure FieldObject where
  title : Option String
  value : Option String
  short : Option Bool
deriving DecidableEq, Repr

/-! ### Model of `str::parse::<i16>` -/

/-- Decimal digit value of a character, `none` for a non-digit
(`'0'`–`'9'` are code points 48–57). -/
def decDigit? (c : Char) : Option Nat :=
  if 48 ≤ c.toNat ∧ c.toNat ≤ 57 then some (c.toNat - 48) else none

/-- Accumulating decimal reading of a digit list; fails on the first
non-digit character. -/
def digitsAux : List Char → Nat → Option Nat
  | [], acc => some acc
  | c :: cs, acc => (decDigit? c).bind fun d => digitsAux cs (acc * 10 + d)

/-- Reads a non-empty all-digit character list as a natural number. -/
def digitsToNat? : List Char → Option Nat
  | [] => none
  | cs => digitsAux cs 0

/-- Model of Rust's integer `FromStr` grammar: an optional leading `'+'`
or `'-'` sign followed by one or more decimal digits, no other characters
allowed. Returns the signed mathematical value. -/
def parseSignDigits (s : String) : Option Int :=
  match s.data with
  | [] => none
  | c :: rest =>
    if c = '+' then (digitsToNat? rest).map Int.ofNat
    else if c = '-' then (digitsToNat? rest).map (fun n => -(n : Int))
    else (digitsToNat? (c :: rest)).map Int.ofNat

/-- Model of `str::parse::<i16>`: the signed-decimal grammar of
`parseSignDigits` plus the `i16` range check `-32768 ≤ n ≤ 32767`;
out-of-range integers are a parse failure, exactly as in Rust. -/
def parseI16 (s : String) : Option Int :=
  (parseSignDigits s).bind fun n =>
    if -32768 ≤ n ∧ n ≤ 32767 then some n else none

/-! ### Model of `i16::to_string` (the `Display` rendering) -/

/-- Big-endian decimal digit characters of a natural number, computed with
explicit fuel (adequate whenever `n ≤ fuel`); empty for 0. -/
def natDecimalAux : Nat → Nat → List Char
  | _, 0 => []
  | 0, _ => []
  | fuel + 1, n => natDecimalAux fuel (n / 10) ++ [Char.ofNat (n % 10 + 48)]

/-- Big-endian decimal digit characters of a natural number (empty for 0). -/
def natDecimalChars (n : Nat) : List Char :=
  natDecimalAux n n

/-- Decimal string of a natural number, rendering 0 as `"0"`. -/
def natDecimal (n : Nat) : String :=
  if n = 0 then "0" else ⟨natDecimalChars n⟩

/-- Model of the `Display`/`to_string` rendering of a Rust signed integer:
minus sign for negative values, then the decimal digits. -/
def intToDecimal (i : Int) : String :=
  if i < 0 then "-" ++ natDecimal i.natAbs else natDecimal i.natAbs

/-! ### Model of `url::Url`

The `url` crate is an external dependency; it is modelled here just
finely enough for the behaviour the pipeline depends on: `Url::parse`
requires a scheme (one ASCII letter followed by ASCII
letters/digits/`+`/`-`/`.`) terminated by `':'` and fails otherwise
(in particular on strings starting with `'<'` and on scheme-less
strings), and the serializer `Url::to_string` never emits the characters
`'<'` or `'>'`, which the WHATWG URL serialization always
percent-encodes (`%3C`/`%3E`).  Host validation and the other
normalizations of the crate (scheme case-folding, trailing-slash
insertion) are not modelled; no property below distinguishes them. -/

/-- Model of a parsed `url::Url`: the scheme together with everything
after the first `':'` of the input. -/
structure Url where
  scheme : String
  rest : String
deriving DecidableEq, Repr

/-- Characters allowed in a URI scheme after the first: ASCII
letters, digits, `'+'`, `'-'`, `'.'`. -/
def isSchemeChar (c : Char) : Bool :=
  c.isAlphanum || c = '+' || c = '-' || c = '.'

/-- Validity of a scheme character list: non-empty, starting with an
ASCII letter, rest scheme characters. -/
def isSchemeOk : List Char → Bool
  | [] => false
  | c :: cs => c.isAlpha && cs.all isSchemeChar

/-- Percent-encoding of the angle brackets `'<'`/`'>'` (as the WHATWG URL
serializer does in userinfo, path, query and fragment); all other
characters are kept. -/
def encodeAngles : List Char → List Char
  | [] => []
  | c :: cs =>
    if c = '<' then '%' :: '3' :: 'C' :: encodeAngles cs
    else if c = '>' then '%' :: '3' :: 'E' :: encodeAngles cs
    else c :: encodeAngles cs

/-- Model of `url::Url::parse`: split at the first `':'`, validate the
scheme, percent-encode angle brackets in the remainder; fails when there
is no `':'` or the scheme is invalid. -/
def Url.parse (s : String) : Option Url :=
  if (s.data.dropWhile fun c => c ≠ ':') = [] then none
  else if isSchemeOk (s.data.takeWhile fun c => c ≠ ':') then
    some ⟨⟨s.data.takeWhile fun c => c ≠ ':'⟩,
      ⟨encodeAngles (s.data.dropWhile fun c => c ≠ ':').tail⟩⟩
  else none

/-- Model of `url::Url::to_string` (the canonical serialization). -/
def Url.toString (u : Url) : String :=
  u.scheme ++ ":" ++ u.rest

/-! ### Model of `str::trim_start_matches` / `trim_end_matches` with a
single-character pattern -/

/-- Model of `value.trim_start_matches(c)`: removes every leading
occurrence of `c`. -/
def trimStartMatches (c : Char) (s : String) : String :=
  ⟨s.data.dropWhile (fun x => x = c)⟩

/-- Model of `value.trim_end_matches(c)`: removes every trailing
occurrence of `c`. -/
def trimEndMatches (c : Char) (s : String) : String :=
  ⟨(s.data.reverse.dropWhile (fun x => x = c)).reverse⟩

/-- The bracket stripping applied to `"URL"` values in
`models.rs`: `value.trim_start_matches('<').trim_end_matches('>')`. -/
def trimAngles (s : String) : String :=
  trimEndMatches '>' (trimStartMatches '<' s)

/-! ### The record and the field codec (`src/models.rs`) -/

/-- The `OpenSourceAttachment` struct of `models.rs`; `number_of_hours`
is an `i16` in Rust, modelled as `Int` with explicit range facts where
they matter. -/
structure OpenSourceAttachment where
  username : String
  number_of_hours : Int
  country : String
  url : Url
  description : String
deriving DecidableEq, Repr

/-- Structured model of the `anyhow` error values produced by the decoder
`TryFrom<Vec<SlackMessageAttachmentFieldObject>> for OpenSourceAttachment`
and by the aggregation loop of `slack.rs`. Each constructor corresponds
to one `format_err!`/`context` site:
`missingUsername` = "missing username", `missingHours` = "missing number
of hours", `missingCountry` = "missing country", `missingUrl` =
"missing url", `missingDescription` = "missing description",
`badHours raw` = the `i16` parse error with context `raw`,
`badUrl raw` = the URL parse error with context `raw`,
`unknownField t` = "unknown field name 't'",
`noAttachments` = "No attachments" (from `report_user_stats`). -/
inductive DecodeErr where
  | missingUsername
  | missingHours
  | missingCountry
  | missingUrl
  | missingDescription
  | badHours (raw : String)
  | badUrl (raw : String)
  | unknownField (title : String)
  | noAttachments
deriving DecidableEq, Repr

/-- Decidable equality of `Except` results, so that concrete decoder and
validator runs can be checked by `decide`. -/
instance instDecEqExcept {ε α : Type} [DecidableEq ε] [DecidableEq α] :
    DecidableEq (Except ε α) := fun a b =>
  match a, b with
  | .ok x, .ok y =>
    if h : x = y then .isTrue (congrArg Except.ok h)
    else .isFalse fun hc => h (by injection hc)
  | .ok _, .error _ => .isFalse fun hc => Except.noConfusion hc
  | .error _, .ok _ => .isFalse fun hc => Except.noConfusion hc
  | .error e, .error f =>
    if h : e = f then .isTrue (congrArg Except.error h)
    else .isFalse fun hc => h (by injection hc)

/-- The five mutable `Result` locals of `try_from` in `models.rs`, as a
record of `Except` values. -/
structure DecState where
  username : Except DecodeErr String
  hours : Except DecodeErr Int
  country : Except DecodeErr String
  url : Except DecodeErr Url
  description : Except DecodeErr String

/-- Initial decoder state: every slot holds its "missing …" error, as in
lines 19–23 of `models.rs`. -/
def initState : DecState :=
  ⟨.error .missingUsername, .error .missingHours, .error .missingCountry,
    .error .missingUrl, .error .missingDescription⟩

/-- Parse stored into the `number_of_hours` slot for a `"Time"` value
(`value.parse::<i16>().context(value.clone())`). -/
def hoursOf (v : String) : Except DecodeErr Int :=
  match parseI16 v with
  | some n => .ok n
  | none => .error (.badHours v)

/-- Parse stored into the `url` slot for a `"URL"` value: angle brackets
trimmed, then `Url::parse(trimmed).context(value.clone())`. -/
def urlOf (v : String) : Except DecodeErr Url :=
  match Url.parse (trimAngles v) with
  | some u => .ok u
  | none => .error (.badUrl v)

/-- One iteration of the `for field in &fields` loop of `try_from`:
fields without title or value are skipped, recognized titles overwrite
the corresponding slot, an unrecognized title aborts the whole decode. -/
def stepField (st : DecState) (f : FieldObject) : Except DecodeErr DecState :=
  match f.title with
  | none => .ok st
  | some title =>
    match f.value with
    | none => .ok st
    | some value =>
      if title = "Author" then .ok { st with username := .ok value }
      else if title = "Time" then .ok { st with hours := hoursOf value }
      else if title = "Office" then .ok { st with country := .ok value }
      else if title = "URL" then .ok { st with url := urlOf value }
      else if title = "Description" then .ok { st with description := .ok value }
      else .error (.unknownField title)

/-- Model of `TryFrom<Vec<SlackMessageAttachmentFieldObject>> for
OpenSourceAttachment`: fold the loop body over the fields, then force the
five slots with `?` in the order username, number_of_hours, country,
url, description. -/
def tryFromFields (fields : List FieldObject) : Except DecodeErr OpenSourceAttachment := do
  let st ← fields.foldlM stepField initState
  let username ← st.username
  let number_of_hours ← st.hours
  let country ← st.country
  let url ← st.url
  let description ← st.description
  return ⟨username, number_of_hours, country, url, description⟩

/-- Model of `From<OpenSourceAttachment> for
Vec<SlackMessageAttachmentFieldObject>`: the five `(title, value)` pairs
in fixed order `Author, Time, Office, URL, Description`. -/
def encodeFields (a : OpenSourceAttachment) : List FieldObject :=
  [ ⟨some "Author", some a.username, some true⟩,
    ⟨some "Time", some (intToDecimal a.number_of_hours), some true⟩,
    ⟨some "Office", some a.country, some true⟩,
    ⟨some "URL", some a.url.toString, some true⟩,
    ⟨some "Description", some a.description, some false⟩ ]

/-! ### The submission validator (`src/request_handlers.rs`,
`ViewSubmission` branch) and `AppError` (`src/errors.rs`) -/

/-- Model of `AppError` from `errors.rs`. The payload of
`InternalServerError` is the message of the underlying `anyhow` error. -/
inductive AppError where
  | internalServerError (msg : String)
  | inputValidationError (field_name : String) (message : String)
deriving DecidableEq, Repr

/-- Character-list core of the `str::starts_with` model. -/
def startsWithList : List Char → List Char → Bool
  | _, [] => true
  | [], _ :: _ => false
  | c :: cs, p :: ps => c = p && startsWithList cs ps

/-- Model of Rust's `str::starts_with(&str)`: the second string is a
prefix of the first. -/
def strStartsWith (s p : String) : Bool :=
  startsWithList s.data p.data

/-- Pure core of the `ViewSubmission` branch of
`interaction_event_handler` (`request_handlers.rs` lines 141–190),
after the form values and the username have been extracted: parse
`number_of_hours` as `i16` — a failure escalates through
`.context("number_of_hours is not an i16")?` and the blanket
`From<anyhow::Error> for AppError` into `InternalServerError` — then
require hours `> 0`, parse the URL, require its scheme to start with
`"http"`, and build the record. -/
def validateSubmission (number_of_hours url description country username : String) :
    Except AppError OpenSourceAttachment :=
  match parseI16 number_of_hours with
  | none => .error (.internalServerError "number_of_hours is not an i16")
  | some parsed_hours =>
    if parsed_hours ≤ 0 then
      .error (.inputValidationError "number_of_hours" "Number of hours must be greater than 0")
    else
      match Url.parse url with
      | none => .error (.inputValidationError "url" "Not a valid URL")
      | some parsed_url =>
        if strStartsWith parsed_url.scheme "http" then
          .ok ⟨username, parsed_hours, country, parsed_url, description⟩
        else
          .error (.inputValidationError "url" "URL should point to an HTTP or HTTPS resource")

/-! ### The aggregator (`src/slack.rs`, `report_user_stats`) -/

/-- Model of a Slack message attachment as the aggregator sees it: an
optional field list. -/
structure SlackAttachment where
  fields : Option (List FieldObject)
deriving Repr

/-- Model of a Slack channel message as the aggregator sees it: an
optional attachment list. -/
structure SlackMessage where
  attachments : Option (List SlackAttachment)
deriving Repr

/-- Wrap-around of an integer into the `i16` range, the two's-complement
semantics of Rust release-mode arithmetic. -/
def i16wrap (n : Int) : Int :=
  (n + 32768) % 65536 - 32768

/-- The unguarded `i16` addition `current + entry.number_of_hours` of
`report_user_stats`: wraps on overflow. -/
def i16add (a b : Int) : Int :=
  i16wrap (a + b)

/-- Lookup in the association-list model of the
`HashMap<String, i16>` of `report_user_stats` (first matching key). -/
def statsGet (m : List (String × Int)) (k : String) : Option Int :=
  match m with
  | [] => none
  | p :: rest => if p.1 = k then some p.2 else statsGet rest k

/-- Insert/overwrite in the association-list model of the `HashMap`. -/
def statsInsert (m : List (String × Int)) (k : String) (v : Int) : List (String × Int) :=
  match m with
  | [] => [(k, v)]
  | p :: rest => if p.1 = k then (k, v) :: rest else p :: statsInsert rest k v

/-- The per-message decode results produced in `report_user_stats`:
messages without attachments contribute nothing; each attachment is
decoded from its field list, an attachment without fields yielding the
"No attachments" error. -/
def entriesOfMessage (msg : SlackMessage) : List (Except DecodeErr OpenSourceAttachment) :=
  match msg.attachments with
  | none => []
  | some atts =>
    atts.map fun a =>
      match a.fields with
      | some fields => tryFromFields fields
      | none => .error .noAttachments

/-- The inner `for entry in entries` loop body of `report_user_stats`:
decode failures are skipped, successes add the entry's hours (with the
`i16` addition) to the running total of the entry's username. -/
def foldEntry (hours : List (String × Int)) (entry : Except DecodeErr OpenSourceAttachment) :
    List (String × Int) :=
  match entry with
  | .error _ => hours
  | .ok e =>
    let current := (statsGet hours e.username).getD 0
    statsInsert hours e.username (i16add current e.number_of_hours)

/-- Model of the aggregation loop of `report_user_stats`: fold every
message's entries over the initially empty hours map. -/
def aggregate (msgs : List SlackMessage) : List (String × Int) :=
  msgs.foldl (fun hours msg => (entriesOfMessage msg).foldl foldEntry hours) []

/-! ### Specification-side definitions and proof helpers -/

/-- Modelled from the spec: stripping of exactly one leading `'<'` and
exactly one trailing `'>'` (when present), the reading of "stripped of a
single leading `<` and trailing `>`" — to be compared with the source's
`trimAngles`, which strips every such character. -/
def stripOneAngle (s : String) : String :=
  let l := if s.data.head? = some '<' then s.data.tail else s.data
  ⟨if l.getLast? = some '>' then l.dropLast else l⟩

/-- Value a field contributes to the slot of title `t`: its value when
its title and value are present and the title is `t`. -/
def matchField (t : String) (f : FieldObject) : Option String :=
  match f.title, f.value with
  | some t', some v => if t' = t then some v else none
  | _, _ => none

/-- Last value for title `t` in a field list (later fields overwrite
earlier ones in the decoder loop). -/
def lastVal (t : String) : List FieldObject → Option String
  | [] => none
  | f :: fs => (lastVal t fs).orElse fun _ => matchField t f

/-- A field is harmless for the decoder loop when it is skipped (missing
title or value) or carries one of the five recognized titles. -/
def fieldRecognized (f : FieldObject) : Bool :=
  match f.title, f.value with
  | some t, some _ =>
    t = "Author" || t = "Time" || t = "Office" || t = "URL" || t = "Description"
  | _, _ => true

/-- A field that makes the decoder loop abort: title and value present,
title unrecognized. -/
def fieldUnknown (f : FieldObject) : Bool :=
  match f.title, f.value with
  | some t, some _ =>
    !(t = "Author" || t = "Time" || t = "Office" || t = "URL" || t = "Description")
  | _, _ => false

/-- Final content of a string slot given its base value and the last
value written to it. -/
def slotS (base : Except DecodeErr String) : Option String → Except DecodeErr String
  | some x => .ok x
  | none => base

/-- Final content of the hours slot given its base value and the last
`"Time"` value written to it. -/
def slotH (base : Except DecodeErr Int) : Option String → Except DecodeErr Int
  | some x => hoursOf x
  | none => base

/-- Final content of the url slot given its base value and the last
`"URL"` value written to it. -/
def slotU (base : Except DecodeErr Url) : Option String → Except DecodeErr Url
  | some x => urlOf x
  | none => base

/-- The five-field list with the recognized titles in their standard
order, used for concrete decoding scenarios. -/
def mkFields (u hs c us d : String) : List FieldObject :=
  [ ⟨some "Author", some u, some true⟩,
    ⟨some "Time", some hs, some true⟩,
    ⟨some "Office", some c, some true⟩,
    ⟨some "URL", some us, some true⟩,
    ⟨some "Description", some d, some false⟩ ]

/-- Concatenation of the decode results of every attachment of every
message, in order. -/
def allEntries : List SlackMessage → List (Except DecodeErr OpenSourceAttachment)
  | [] => []
  | m :: ms => entriesOfMessage m ++ allEntries ms

/-- Hours of the successfully decoded entries that belong to user `u`,
in order. -/
def entryHoursFor (u : String) (es : List (Except DecodeErr OpenSourceAttachment)) : List Int :=
  es.filterMap fun e =>
    match e with
    | .ok r => if r.username = u then some r.number_of_hours else none
    | .error _ => none

/-- Hours of all successfully decoded entries of user `u` in a message
sequence, in order. -/
def userHoursList (u : String) (msgs : List SlackMessage) : List Int :=
  entryHoursFor u (allEntries msgs)

/-- Specification-side per-user total: fold of the user's decoded hours
under the program's 16-bit addition. -/
def userTotal (u : String) (msgs : List SlackMessage) : Int :=
  (userHoursList u msgs).foldl i16add 0

/-! ### Lemmas: decimal rendering and parsing round-trip -/

theorem decDigit_ofNat (d : Nat) (hd : d < 10) : decDigit? (Char.ofNat (d + 48)) = some d := by
  interval_cases d <;> rfl

theorem digitsAux_append (l₁ l₂ : List Char) (acc : Nat) :
    digitsAux (l₁ ++ l₂) acc = (digitsAux l₁ acc).bind fun a => digitsAux l₂ a := by
  induction l₁ generalizing acc with
  | nil => rfl
  | cons c cs ih =>
    simp only [List.cons_append, digitsAux]
    cases decDigit? c with
    | none => rfl
    | some d => simp [ih]

theorem natDecimalAux_digitsAux (fuel : Nat) :
    ∀ n acc, n ≤ fuel →
      digitsAux (natDecimalAux fuel n) acc
        = some (acc * 10 ^ (natDecimalAux fuel n).length + n) := by
  induction fuel with
  | zero =>
    intro n acc h
    interval_cases n
    simp [natDecimalAux, digitsAux]
  | succ fuel ih =>
    intro n acc h
    match n with
    | 0 => simp [natDecimalAux, digitsAux]
    | n + 1 =>
      have hdiv : (n + 1) / 10 ≤ fuel := by omega
      have hmod : (n + 1) % 10 < 10 := by omega
      have hstep : natDecimalAux (fuel + 1) (n + 1)
          = natDecimalAux fuel ((n + 1) / 10) ++ [Char.ofNat ((n + 1) % 10 + 48)] := rfl
      rw [hstep, digitsAux_append, ih _ _ hdiv]
      have hone : ∀ a : Nat, digitsAux [Char.ofNat ((n + 1) % 10 + 48)] a
          = some (a * 10 + (n + 1) % 10) := by
        intro a
        simp [digitsAux, decDigit_ofNat _ hmod]
      rw [Option.some_bind, hone]
      have hlen : (natDecimalAux fuel ((n + 1) / 10) ++ [Char.ofNat ((n + 1) % 10 + 48)]).length
          = (natDecimalAux fuel ((n + 1) / 10)).length + 1 := by simp
      rw [hlen, pow_succ, ← mul_assoc]
      have hdm := Nat.div_add_mod (n + 1) 10
      generalize acc * 10 ^ (natDecimalAux fuel ((n + 1) / 10)).length = A
      congr 1
      omega

theorem natDecimalAux_all_digits (fuel : Nat) :
    ∀ n, ∀ c ∈ natDecimalAux fuel n, 48 ≤ c.toNat ∧ c.toNat ≤ 57 := by
  induction fuel with
  | zero =>
    intro n c hc
    cases n <;> simp [natDecimalAux] at hc
  | succ fuel ih =>
    intro n c hc
    match n with
    | 0 => simp [natDecimalAux] at hc
    | n + 1 =>
      have hstep : natDecimalAux (fuel + 1) (n + 1)
          = natDecimalAux fuel ((n + 1) / 10) ++ [Char.ofNat ((n + 1) % 10 + 48)] := rfl
      rw [hstep] at hc
      rcases List.mem_append.mp hc with h | h
      · exact ih _ c h
      · have hd : (n + 1) % 10 < 10 := by omega
        have hc' : c = Char.ofNat ((n + 1) % 10 + 48) := by simpa using h
        subst hc'
        generalize hgen : (n + 1) % 10 = d at hd
        interval_cases d <;> exact ⟨by decide, by decide⟩

theorem natDecimalAux_ne_nil (fuel n : Nat) (h1 : n ≠ 0) (h2 : n ≤ fuel) :
    natDecimalAux fuel n ≠ [] := by
  match fuel, n with
  | 0, n => omega
  | fuel + 1, 0 => exact absurd rfl h1
  | fuel + 1, n + 1 =>
    have hstep : natDecimalAux (fuel + 1) (n + 1)
        = natDecimalAux fuel ((n + 1) / 10) ++ [Char.ofNat ((n + 1) % 10 + 48)] := rfl
    rw [hstep]
    simp

theorem parseSignDigits_natDecimalChars (m : Nat) (hm : m ≠ 0) :
    parseSignDigits ⟨natDecimalChars m⟩ = some (m : Int) := by
  have hne := natDecimalAux_ne_nil m m hm le_rfl
  rcases hL : natDecimalAux m m with _ | ⟨c, cs⟩
  · exact absurd hL hne
  · have hdig : 48 ≤ c.toNat ∧ c.toNat ≤ 57 := by
      have := natDecimalAux_all_digits m m c
      rw [hL] at this
      exact this (by simp)
    have hplus : ¬(c = '+') := by
      intro h
      rw [h] at hdig
      revert hdig
      decide
    have hminus : ¬(c = '-') := by
      intro h
      rw [h] at hdig
      revert hdig
      decide
    have hval : digitsAux (c :: cs) 0 = some m := by
      have := natDecimalAux_digitsAux m m 0 le_rfl
      rw [hL] at this
      simpa using this
    rw [natDecimalChars, hL]
    show parseSignDigits ⟨c :: cs⟩ = some (m : Int)
    simp only [parseSignDigits, if_neg hplus, if_neg hminus]
    show (digitsToNat? (c :: cs)).map Int.ofNat = some (m : Int)
    rw [show digitsToNat? (c :: cs) = digitsAux (c :: cs) 0 from rfl, hval]
    rfl

theorem parseI16_intToDecimal (n : Int) (h1 : 0 < n) (h2 : n ≤ 32767) :
    parseI16 (intToDecimal n) = some n := by
  have hnat : n.natAbs ≠ 0 := by omega
  have hrender : intToDecimal n = ⟨natDecimalChars n.natAbs⟩ := by
    rw [intToDecimal, if_neg (by omega), natDecimal, if_neg hnat]
  rw [hrender, parseI16, parseSignDigits_natDecimalChars _ hnat]
  have habs : (n.natAbs : Int) = n := Int.natAbs_of_nonneg (by omega)
  rw [habs, Option.some_bind, if_pos (by omega)]

/-! ### Lemmas: the URL model -/

theorem isSchemeChar_ne_colon {c : Char} (h : isSchemeChar c = true) : ¬(c = ':') := by
  intro hc
  rw [hc] at h
  revert h
  decide

theorem isAlpha_ne_colon {c : Char} (h : c.isAlpha = true) : ¬(c = ':') := by
  intro hc
  rw [hc] at h
  revert h
  decide

theorem isAlpha_ne_langle {c : Char} (h : c.isAlpha = true) : ¬(c = '<') := by
  intro hc
  rw [hc] at h
  revert h
  decide

theorem schemeOk_ne_colon {cs : List Char} (h : isSchemeOk cs = true) :
    ∀ c ∈ cs, decide (c ≠ ':') = true := by
  match cs with
  | [] => simp [isSchemeOk] at h
  | c₀ :: rest =>
    rw [isSchemeOk, Bool.and_eq_true] at h
    intro c hc
    rcases List.mem_cons.mp hc with rfl | hmem
    · exact decide_eq_true (isAlpha_ne_colon h.1)
    · have := List.all_eq_true.mp h.2 c hmem
      exact decide_eq_true (isSchemeChar_ne_colon this)

theorem encodeAngles_no_angles (cs : List Char) :
    ∀ c ∈ encodeAngles cs, ¬(c = '<') ∧ ¬(c = '>') := by
  induction cs with
  | nil => intro c hc; simp [encodeAngles] at hc
  | cons c cs ih =>
    intro x hx
    rw [encodeAngles] at hx
    by_cases h1 : c = '<'
    · rw [if_pos h1] at hx
      simp only [List.mem_cons] at hx
      rcases hx with rfl | rfl | rfl | h
      · exact ⟨by decide, by decide⟩
      · exact ⟨by decide, by decide⟩
      · exact ⟨by decide, by decide⟩
      · exact ih x h
    · rw [if_neg h1] at hx
      by_cases h2 : c = '>'
      · rw [if_pos h2] at hx
        simp only [List.mem_cons] at hx
        rcases hx with rfl | rfl | rfl | h
        · exact ⟨by decide, by decide⟩
        · exact ⟨by decide, by decide⟩
        · exact ⟨by decide, by decide⟩
        · exact ih x h
      · rw [if_neg h2] at hx
        simp only [List.mem_cons] at hx
        rcases hx with rfl | h
        · exact ⟨h1, h2⟩
        · exact ih x h

theorem encodeAngles_id {cs : List Char} (h : ∀ c ∈ cs, ¬(c = '<') ∧ ¬(c = '>')) :
    encodeAngles cs = cs := by
  induction cs with
  | nil => rfl
  | cons c cs ih =>
    have hc := h c (List.mem_cons_self c cs)
    rw [encodeAngles, if_neg hc.1, if_neg hc.2,
      ih fun x hx => h x (List.mem_cons_of_mem _ hx)]

theorem encodeAngles_idem (cs : List Char) :
    encodeAngles (encodeAngles cs) = encodeAngles cs :=
  encodeAngles_id (encodeAngles_no_angles cs)

theorem takeWhile_append_of_all {α : Type} (p : α → Bool) (l₁ l₂ : List α)
    (h : ∀ c ∈ l₁, p c = true) : (l₁ ++ l₂).takeWhile p = l₁ ++ l₂.takeWhile p := by
  induction l₁ with
  | nil => simp
  | cons c cs ih =>
    rw [List.cons_append, List.takeWhile_cons, h c (List.mem_cons_self c cs),
      ih fun x hx => h x (List.mem_cons_of_mem _ hx)]
    rfl

theorem dropWhile_append_of_all {α : Type} (p : α → Bool) (l₁ l₂ : List α)
    (h : ∀ c ∈ l₁, p c = true) : (l₁ ++ l₂).dropWhile p = l₂.dropWhile p := by
  induction l₁ with
  | nil => simp
  | cons c cs ih =>
    rw [List.cons_append, List.dropWhile_cons, h c (List.mem_cons_self c cs),
      ih fun x hx => h x (List.mem_cons_of_mem _ hx)]
    rfl

theorem dropWhile_cons_false {α : Type} (p : α → Bool) (x : α) (xs : List α)
    (h : p x = false) : (x :: xs).dropWhile p = x :: xs := by
  rw [List.dropWhile_cons, h]
  rfl

theorem parse_eq_some {s : String} {u : Url} (h : Url.parse s = some u) :
    ∃ x rest, s.data.dropWhile (fun c => c ≠ ':') = x :: rest
      ∧ isSchemeOk (s.data.takeWhile fun c => c ≠ ':') = true
      ∧ u = ⟨⟨s.data.takeWhile fun c => c ≠ ':'⟩, ⟨encodeAngles rest⟩⟩ := by
  rw [Url.parse] at h
  rcases hd : s.data.dropWhile (fun c => c ≠ ':') with _ | ⟨x, rest⟩
  · rw [if_pos hd] at h
    cases h
  · rw [if_neg (by rw [hd]; simp)] at h
    by_cases hs : isSchemeOk (s.data.takeWhile fun c => c ≠ ':') = true
    · rw [if_pos hs, hd] at h
      exact ⟨x, rest, rfl, hs, (Option.some.inj h).symm⟩
    · rw [if_neg hs] at h
      cases h

theorem toString_data (pre er : List Char) :
    (Url.toString ⟨⟨pre⟩, ⟨er⟩⟩).data = pre ++ ':' :: er := by
  rw [Url.toString]
  show ((⟨pre⟩ : String) ++ ":" ++ (⟨er⟩ : String)).data = pre ++ ':' :: er
  rw [String.data_append, String.data_append]
  show (pre ++ [':']) ++ er = pre ++ ':' :: er
  rw [List.append_assoc]
  rfl

theorem parse_toString {s : String} {u : Url} (h : Url.parse s = some u) :
    Url.parse u.toString = some u := by
  obtain ⟨x, rest, hd, hs, hu⟩ := parse_eq_some h
  subst hu
  have hpre := schemeOk_ne_colon hs
  have hdata := toString_data (s.data.takeWhile fun c => c ≠ ':') (encodeAngles rest)
  have hdw : ((Url.toString ⟨⟨s.data.takeWhile fun c => c ≠ ':'⟩, ⟨encodeAngles rest⟩⟩).data.dropWhile
      fun c => c ≠ ':') = ':' :: encodeAngles rest := by
    rw [hdata, dropWhile_append_of_all _ _ _ hpre]
    exact dropWhile_cons_false _ _ _ (by decide)
  have htw : ((Url.toString ⟨⟨s.data.takeWhile fun c => c ≠ ':'⟩, ⟨encodeAngles rest⟩⟩).data.takeWhile
      fun c => c ≠ ':') = s.data.takeWhile fun c => c ≠ ':' := by
    rw [hdata, takeWhile_append_of_all _ _ _ hpre]
    have : (':' :: encodeAngles rest).takeWhile (fun c => decide (c ≠ ':')) = [] := by
      rw [List.takeWhile_cons]
      rfl
    rw [this, List.append_nil]
  rw [Url.parse, htw, hdw]
  rw [if_neg (by simp), if_pos hs]
  simp [encodeAngles_idem]

theorem string_mk_data (s : String) : (⟨s.data⟩ : String) = s := rfl

theorem trimStart_of_head {c : Char} {cs : List Char} (h : ¬(c = '<')) :
    trimStartMatches '<' ⟨c :: cs⟩ = ⟨c :: cs⟩ := by
  rw [trimStartMatches]
  show (⟨(c :: cs).dropWhile fun x => decide (x = '<')⟩ : String) = ⟨c :: cs⟩
  rw [dropWhile_cons_false (fun x => decide (x = '<')) c cs (decide_eq_false h)]

theorem trimEnd_of_last {l : List Char}
    (h : ∀ c, l.reverse.head? = some c → ¬(c = '>')) :
    trimEndMatches '>' ⟨l⟩ = ⟨l⟩ := by
  rw [trimEndMatches]
  show (⟨((l.reverse.dropWhile fun x => decide (x = '>'))).reverse⟩ : String) = ⟨l⟩
  rcases hre : l.reverse with _ | ⟨c, cs⟩
  · have : l = [] := by
      rw [← List.reverse_reverse l, hre]
      rfl
    rw [this]
    rfl
  · rw [dropWhile_cons_false (fun x => decide (x = '>')) c cs
        (decide_eq_false (h c (by rw [hre]; rfl))),
      ← hre, List.reverse_reverse]

theorem last_ne_gt (pre er : List Char) (hner : ∀ c ∈ er, ¬(c = '>')) :
    ∀ c, ((pre ++ ':' :: er).reverse).head? = some c → ¬(c = '>') := by
  intro c hc
  rw [List.reverse_append, List.reverse_cons] at hc
  rcases hre : er.reverse with _ | ⟨e, es⟩
  · rw [hre] at hc
    have hc' : some ':' = some c := hc
    rw [← Option.some.inj hc']
    decide
  · rw [hre] at hc
    have hc' : some e = some c := hc
    rw [← Option.some.inj hc']
    have hmem : e ∈ er := by
      rw [← List.mem_reverse, hre]
      exact List.mem_cons_self e es
    exact hner e hmem

theorem trimAngles_toString {s : String} {u : Url} (h : Url.parse s = some u) :
    trimAngles u.toString = u.toString := by
  obtain ⟨x, rest, hd, hs, hu⟩ := parse_eq_some h
  subst hu
  have hner := encodeAngles_no_angles rest
  have hdata := toString_data (s.data.takeWhile fun c => c ≠ ':') (encodeAngles rest)
  rcases hp : s.data.takeWhile (fun c => c ≠ ':') with _ | ⟨c₀, pre⟩
  · rw [hp] at hs
    simp [isSchemeOk] at hs
  · have halpha : c₀.isAlpha = true := by
      rw [hp, isSchemeOk, Bool.and_eq_true] at hs
      exact hs.1
    rw [hp] at hdata
    rw [trimAngles]
    have hmk : Url.toString ⟨⟨c₀ :: pre⟩, ⟨encodeAngles rest⟩⟩
        = ⟨(c₀ :: pre) ++ ':' :: encodeAngles rest⟩ := by
      rw [← hdata, string_mk_data]
    rw [hmk]
    rw [show ((c₀ :: pre) ++ ':' :: encodeAngles rest)
        = c₀ :: (pre ++ ':' :: encodeAngles rest) from rfl]
    rw [trimStart_of_head (isAlpha_ne_langle halpha)]
    exact trimEnd_of_last
      (last_ne_gt (c₀ :: pre) (encodeAngles rest) fun c hmem => (hner c hmem).2)

/-! ### Lemmas: the decoder loop -/

theorem ok_bind {α β : Type} (a : α) (f : α → Except DecodeErr β) :
    (Except.ok a >>= f) = f a := rfl

theorem err_bind {α β : Type} (e : DecodeErr) (f : α → Except DecodeErr β) :
    ((Except.error e : Except DecodeErr α) >>= f) = Except.error e := rfl

theorem foldlM_cons_eq (f : DecState → FieldObject → Except DecodeErr DecState)
    (b : DecState) (a : FieldObject) (l : List FieldObject) :
    (a :: l).foldlM f b = f b a >>= fun b' => l.foldlM f b' := rfl

theorem stepField_skip (st : DecState) (f : FieldObject)
    (h : f.title = none ∨ f.value = none) : stepField st f = .ok st := by
  rcases f with ⟨t, v, b⟩
  rcases h with h | h
  · simp only at h
    subst h
    rfl
  · simp only at h
    subst h
    rcases t with _ | t <;> rfl

theorem stepField_author (st : DecState) (v : String) (b : Option Bool) :
    stepField st ⟨some "Author", some v, b⟩ = .ok { st with username := .ok v } := by
  simp [stepField]

theorem stepField_time (st : DecState) (v : String) (b : Option Bool) :
    stepField st ⟨some "Time", some v, b⟩ = .ok { st with hours := hoursOf v } := by
  simp [stepField]

theorem stepField_office (st : DecState) (v : String) (b : Option Bool) :
    stepField st ⟨some "Office", some v, b⟩ = .ok { st with country := .ok v } := by
  simp [stepField]

theorem stepField_url (st : DecState) (v : String) (b : Option Bool) :
    stepField st ⟨some "URL", some v, b⟩ = .ok { st with url := urlOf v } := by
  simp [stepField]

theorem stepField_description (st : DecState) (v : String) (b : Option Bool) :
    stepField st ⟨some "Description", some v, b⟩ = .ok { st with description := .ok v } := by
  simp [stepField]

theorem stepField_unknown (st : DecState) (t v : String) (b : Option Bool)
    (h1 : ¬(t = "Author")) (h2 : ¬(t = "Time")) (h3 : ¬(t = "Office"))
    (h4 : ¬(t = "URL")) (h5 : ¬(t = "Description")) :
    stepField st ⟨some t, some v, b⟩ = .error (.unknownField t) := by
  simp [stepField, h1, h2, h3, h4, h5]

theorem lastVal_cons_skip (t : String) (f : FieldObject) (fs : List FieldObject)
    (h : matchField t f = none) : lastVal t (f :: fs) = lastVal t fs := by
  show ((lastVal t fs).orElse fun _ => matchField t f) = lastVal t fs
  rw [h]
  cases lastVal t fs <;> rfl

theorem lastVal_cons_match (t : String) (f : FieldObject) (fs : List FieldObject)
    (v : String) (h : matchField t f = some v) :
    lastVal t (f :: fs) = ((lastVal t fs).orElse fun _ => some v) := by
  show ((lastVal t fs).orElse fun _ => matchField t f) = _
  rw [h]

theorem foldlM_stepField_char :
    ∀ (fields : List FieldObject) (st : DecState),
      fields.all fieldRecognized = true →
      fields.foldlM stepField st = .ok
        { username := slotS st.username (lastVal "Author" fields),
          hours := slotH st.hours (lastVal "Time" fields),
          country := slotS st.country (lastVal "Office" fields),
          url := slotU st.url (lastVal "URL" fields),
          description := slotS st.description (lastVal "Description" fields) } := by
  intro fields
  induction fields with
  | nil => intro st _; rfl
  | cons f fs ih =>
    intro st hall
    rw [List.all_cons, Bool.and_eq_true] at hall
    obtain ⟨hf, hfs⟩ := hall
    rcases f with ⟨t, v, b⟩
    rcases t with _ | t
    · rw [foldlM_cons_eq, stepField_skip st _ (Or.inl rfl), ok_bind, ih _ hfs]
      have hm : ∀ t', matchField t' ⟨none, v, b⟩ = none := fun t' => rfl
      rw [lastVal_cons_skip _ _ _ (hm _), lastVal_cons_skip _ _ _ (hm _),
        lastVal_cons_skip _ _ _ (hm _), lastVal_cons_skip _ _ _ (hm _),
        lastVal_cons_skip _ _ _ (hm _)]
    · rcases v with _ | v
      · rw [foldlM_cons_eq, stepField_skip st _ (Or.inr rfl), ok_bind, ih _ hfs]
        have hm : ∀ t', matchField t' ⟨some t, none, b⟩ = none := fun t' => rfl
        rw [lastVal_cons_skip _ _ _ (hm _), lastVal_cons_skip _ _ _ (hm _),
          lastVal_cons_skip _ _ _ (hm _), lastVal_cons_skip _ _ _ (hm _),
          lastVal_cons_skip _ _ _ (hm _)]
      · have hrec : (((t = "Author" ∨ t = "Time") ∨ t = "Office") ∨ t = "URL")
            ∨ t = "Description" := by
          have : (t = "Author" || t = "Time" || t = "Office" || t = "URL"
              || t = "Description") = true := hf
          simpa [Bool.or_eq_true, decide_eq_true_eq] using this
        have hmatch_eq : ∀ t', t' = t →
            matchField t' ⟨some t, some v, b⟩ = some v := by
          intro t' ht'
          simp [matchField, ht'.symm]
        have hmatch_ne : ∀ t', ¬(t = t') →
            matchField t' ⟨some t, some v, b⟩ = none := by
          intro t' ht'
          simp [matchField, ht']
        rcases hrec with (((rfl | rfl) | rfl) | rfl) | rfl
        · rw [foldlM_cons_eq, stepField_author, ok_bind, ih _ hfs]
          rw [lastVal_cons_match _ _ _ v (hmatch_eq _ rfl),
            lastVal_cons_skip _ _ _ (hmatch_ne _ (by decide)),
            lastVal_cons_skip _ _ _ (hmatch_ne _ (by decide)),
            lastVal_cons_skip _ _ _ (hmatch_ne _ (by decide)),
            lastVal_cons_skip _ _ _ (hmatch_ne _ (by decide))]
          simp only [DecState.mk.injEq]
          cases lastVal "Author" fs <;> simp [slotS, slotH, slotU]
        · rw [foldlM_cons_eq, stepField_time, ok_bind, ih _ hfs]
          rw [lastVal_cons_skip _ _ _ (hmatch_ne _ (by decide)),
            lastVal_cons_match _ _ _ v (hmatch_eq _ rfl),
            lastVal_cons_skip _ _ _ (hmatch_ne _ (by decide)),
            lastVal_cons_skip _ _ _ (hmatch_ne _ (by decide)),
            lastVal_cons_skip _ _ _ (hmatch_ne _ (by decide))]
          simp only [DecState.mk.injEq]
          cases lastVal "Time" fs <;> simp [slotS, slotH, slotU]
        · rw [foldlM_cons_eq, stepField_office, ok_bind, ih _ hfs]
          rw [lastVal_cons_skip _ _ _ (hmatch_ne _ (by decide)),
            lastVal_cons_skip _ _ _ (hmatch_ne _ (by decide)),
            lastVal_cons_match _ _ _ v (hmatch_eq _ rfl),
            lastVal_cons_skip _ _ _ (hmatch_ne _ (by decide)),
            lastVal_cons_skip _ _ _ (hmatch_ne _ (by decide))]
          simp only [DecState.mk.injEq]
          cases lastVal "Office" fs <;> simp [slotS, slotH, slotU]
        · rw [foldlM_cons_eq, stepField_url, ok_bind, ih _ hfs]
          rw [lastVal_cons_skip _ _ _ (hmatch_ne _ (by decide)),
            lastVal_cons_skip _ _ _ (hmatch_ne _ (by decide)),
            lastVal_cons_skip _ _ _ (hmatch_ne _ (by decide)),
            lastVal_cons_match _ _ _ v (hmatch_eq _ rfl),
            lastVal_cons_skip _ _ _ (hmatch_ne _ (by decide))]
          simp only [DecState.mk.injEq]
          cases lastVal "URL" fs <;> simp [slotS, slotH, slotU]
        · rw [foldlM_cons_eq, stepField_description, ok_bind, ih _ hfs]
          rw [lastVal_cons_skip _ _ _ (hmatch_ne _ (by decide)),
            lastVal_cons_skip _ _ _ (hmatch_ne _ (by decide)),
            lastVal_cons_skip _ _ _ (hmatch_ne _ (by decide)),
            lastVal_cons_skip _ _ _ (hmatch_ne _ (by decide)),
            lastVal_cons_match _ _ _ v (hmatch_eq _ rfl)]
          simp only [DecState.mk.injEq]
          cases lastVal "Description" fs <;> simp [slotS, slotH, slotU]

theorem stepField_ok_of_not_unknown (st : DecState) (f : FieldObject)
    (h : fieldUnknown f = false) : ∃ st', stepField st f = .ok st' := by
  rcases f with ⟨t, v, b⟩
  rcases t with _ | t
  · exact ⟨st, rfl⟩
  rcases v with _ | v
  · exact ⟨st, rfl⟩
  have hrec : (((t = "Author" ∨ t = "Time") ∨ t = "Office") ∨ t = "URL")
      ∨ t = "Description" := by
    have hb : (t = "Author" || t = "Time" || t = "Office" || t = "URL"
        || t = "Description") = true := by
      have hbn : (!(t = "Author" || t = "Time" || t = "Office" || t = "URL"
          || t = "Description")) = false := h
      revert hbn
      cases (t = "Author" || t = "Time" || t = "Office" || t = "URL"
          || t = "Description")
      · intro hbn
        cases hbn
      · intro _
        rfl
    simpa [Bool.or_eq_true, decide_eq_true_eq] using hb
  rcases hrec with (((rfl | rfl) | rfl) | rfl) | rfl
  · exact ⟨_, stepField_author st v b⟩
  · exact ⟨_, stepField_time st v b⟩
  · exact ⟨_, stepField_office st v b⟩
  · exact ⟨_, stepField_url st v b⟩
  · exact ⟨_, stepField_description st v b⟩

theorem foldlM_stepField_unknown :
    ∀ (fields : List FieldObject) (st : DecState),
      fields.any fieldUnknown = true →
      ∃ t, (t = "Author" || t = "Time" || t = "Office" || t = "URL"
          || t = "Description") = false
        ∧ fields.foldlM stepField st = .error (.unknownField t) := by
  intro fields
  induction fields with
  | nil =>
    intro st h
    simp at h
  | cons f fs ih =>
    intro st h
    by_cases hu : fieldUnknown f = true
    · rcases f with ⟨t, v, b⟩
      rcases t with _ | t
      · simp [fieldUnknown] at hu
      rcases v with _ | v
      · simp [fieldUnknown] at hu
      have hrec : (t = "Author" || t = "Time" || t = "Office" || t = "URL"
          || t = "Description") = false := by
        have : (!(t = "Author" || t = "Time" || t = "Office" || t = "URL"
            || t = "Description")) = true := hu
        revert this
        cases (t = "Author" || t = "Time" || t = "Office" || t = "URL"
            || t = "Description")
        · intro _
          rfl
        · intro hthis
          cases hthis
      have hne : (((¬(t = "Author") ∧ ¬(t = "Time")) ∧ ¬(t = "Office")) ∧ ¬(t = "URL"))
          ∧ ¬(t = "Description") := by
        simpa [Bool.or_eq_true, decide_eq_true_eq] using hrec
      refine ⟨t, hrec, ?_⟩
      rw [foldlM_cons_eq,
        stepField_unknown st t v b hne.1.1.1.1 hne.1.1.1.2 hne.1.1.2 hne.1.2 hne.2,
        err_bind]
    · have hfs : fs.any fieldUnknown = true := by
        rw [List.any_cons, Bool.or_eq_true] at h
        rcases h with h | h
        · exact absurd h hu
        · exact h
      obtain ⟨st', hst'⟩ := stepField_ok_of_not_unknown st f (Bool.not_eq_true _ ▸ hu)
      obtain ⟨t', ht', heq⟩ := ih st' hfs
      exact ⟨t', ht', by rw [foldlM_cons_eq, hst', ok_bind, heq]⟩

/-! ### Lemmas: the aggregation loop -/

theorem aggregate_eq_allEntries :
    ∀ (msgs : List SlackMessage) (init : List (String × Int)),
      msgs.foldl (fun hours msg => (entriesOfMessage msg).foldl foldEntry hours) init
        = (allEntries msgs).foldl foldEntry init := by
  intro msgs
  induction msgs with
  | nil => intro init; rfl
  | cons m ms ih =>
    intro init
    rw [List.foldl_cons, ih]
    rw [show allEntries (m :: ms) = entriesOfMessage m ++ allEntries ms from rfl,
      List.foldl_append]

theorem statsGet_insert_self (m : List (String × Int)) (k : String) (v : Int) :
    statsGet (statsInsert m k v) k = some v := by
  induction m with
  | nil => simp [statsInsert, statsGet]
  | cons p rest ih =>
    by_cases h : p.1 = k
    · simp [statsInsert, h, statsGet]
    · simp [statsInsert, h, statsGet, ih]

theorem statsGet_insert_other (m : List (String × Int)) (k k' : String) (v : Int)
    (h : ¬(k = k')) : statsGet (statsInsert m k v) k' = statsGet m k' := by
  induction m with
  | nil => simp [statsInsert, statsGet, h]
  | cons p rest ih =>
    by_cases hp : p.1 = k
    · rw [statsInsert, if_pos hp, statsGet, if_neg h, statsGet, if_neg (hp ▸ h)]
    · rw [statsInsert, if_neg hp, statsGet, statsGet]
      by_cases hp' : p.1 = k'
      · rw [if_pos hp', if_pos hp']
      · rw [if_neg hp', if_neg hp', ih]

theorem entryHoursFor_err (u : String) (e : DecodeErr)
    (es : List (Except DecodeErr OpenSourceAttachment)) :
    entryHoursFor u (.error e :: es) = entryHoursFor u es := rfl

theorem entryHoursFor_ok_eq (r : OpenSourceAttachment)
    (es : List (Except DecodeErr OpenSourceAttachment)) :
    entryHoursFor r.username (.ok r :: es)
      = r.number_of_hours :: entryHoursFor r.username es := by
  simp [entryHoursFor, List.filterMap_cons]

theorem entryHoursFor_ok_ne (u : String) (r : OpenSourceAttachment)
    (es : List (Except DecodeErr OpenSourceAttachment)) (h : ¬(r.username = u)) :
    entryHoursFor u (.ok r :: es) = entryHoursFor u es := by
  simp [entryHoursFor, List.filterMap_cons, h]

theorem foldEntry_get (es : List (Except DecodeErr OpenSourceAttachment)) :
    ∀ (stats : List (String × Int)) (u : String),
      statsGet (es.foldl foldEntry stats) u
        = if entryHoursFor u es = [] then statsGet stats u
          else some ((entryHoursFor u es).foldl i16add ((statsGet stats u).getD 0)) := by
  induction es with
  | nil =>
    intro stats u
    simp [entryHoursFor]
  | cons e es ih =>
    intro stats u
    rcases e with err | r
    · rw [List.foldl_cons, entryHoursFor_err]
      exact ih stats u
    · rw [List.foldl_cons]
      by_cases hu : r.username = u
      · subst hu
        rw [entryHoursFor_ok_eq]
        have hfe : foldEntry stats (.ok r)
            = statsInsert stats r.username
                (i16add ((statsGet stats r.username).getD 0) r.number_of_hours) := rfl
        rw [hfe, ih _ r.username, statsGet_insert_self]
        by_cases hnil : entryHoursFor r.username es = []
        · rw [if_pos hnil, hnil, if_neg (by simp)]
          rfl
        · rw [if_neg hnil, if_neg (by simp)]
          rw [List.foldl_cons]
          rfl
      · rw [entryHoursFor_ok_ne u r es hu]
        have hfe : foldEntry stats (.ok r)
            = statsInsert stats r.username
                (i16add ((statsGet stats r.username).getD 0) r.number_of_hours) := rfl
        rw [hfe, ih _ u, statsGet_insert_other _ _ _ _ hu]

/-! ### Lemmas: assembling the decoder -/

theorem tryFromFields_eq_bind (fields : List FieldObject) :
    tryFromFields fields = (fields.foldlM stepField initState).bind fun st =>
      st.username.bind fun username =>
      st.hours.bind fun number_of_hours =>
      st.country.bind fun country =>
      st.url.bind fun url =>
      st.description.bind fun description =>
      .ok ⟨username, number_of_hours, country, url, description⟩ := rfl

theorem tryFromFields_char (fields : List FieldObject)
    (hall : fields.all fieldRecognized = true) :
    tryFromFields fields =
      (slotS (.error .missingUsername) (lastVal "Author" fields)).bind fun username =>
      (slotH (.error .missingHours) (lastVal "Time" fields)).bind fun number_of_hours =>
      (slotS (.error .missingCountry) (lastVal "Office" fields)).bind fun country =>
      (slotU (.error .missingUrl) (lastVal "URL" fields)).bind fun url =>
      (slotS (.error .missingDescription) (lastVal "Description" fields)).bind
        fun description =>
      .ok ⟨username, number_of_hours, country, url, description⟩ := by
  rw [tryFromFields_eq_bind, foldlM_stepField_char fields initState hall]
  rfl

theorem foldlM_append_step (l₁ l₂ : List FieldObject) :
    ∀ st : DecState,
      (l₁ ++ l₂).foldlM stepField st
        = (l₁.foldlM stepField st).bind fun st' => l₂.foldlM stepField st' := by
  induction l₁ with
  | nil => intro st; rfl
  | cons a l₁ ih =>
    intro st
    rw [show ((a :: l₁) ++ l₂) = a :: (l₁ ++ l₂) from rfl, foldlM_cons_eq, foldlM_cons_eq]
    rcases hsf : stepField st a with e | st₂
    · rfl
    · rw [ok_bind, ok_bind, ih st₂]

theorem hoursOf_some {v : String} {n : Int} (h : parseI16 v = some n) :
    hoursOf v = .ok n := by
  unfold hoursOf
  rw [h]

theorem hoursOf_none {v : String} (h : parseI16 v = none) :
    hoursOf v = .error (.badHours v) := by
  unfold hoursOf
  rw [h]

theorem urlOf_some {v : String} {u : Url} (h : Url.parse (trimAngles v) = some u) :
    urlOf v = .ok u := by
  unfold urlOf
  rw [h]

theorem urlOf_none {v : String} (h : Url.parse (trimAngles v) = none) :
    urlOf v = .error (.badUrl v) := by
  unfold urlOf
  rw [h]

theorem lastVal_encode_author (r : OpenSourceAttachment) :
    lastVal "Author" (encodeFields r) = some r.username := rfl

theorem lastVal_encode_time (r : OpenSourceAttachment) :
    lastVal "Time" (encodeFields r) = some (intToDecimal r.number_of_hours) := rfl

theorem lastVal_encode_office (r : OpenSourceAttachment) :
    lastVal "Office" (encodeFields r) = some r.country := rfl

theorem lastVal_encode_url (r : OpenSourceAttachment) :
    lastVal "URL" (encodeFields r) = some r.url.toString := rfl

theorem lastVal_encode_description (r : OpenSourceAttachment) :
    lastVal "Description" (encodeFields r) = some r.description := rfl

theorem encode_all_recognized (r : OpenSourceAttachment) :
    (encodeFields r).all fieldRecognized = true := rfl

theorem mk_all_recognized (u hs c us d : String) :
    (mkFields u hs c us d).all fieldRecognized = true := rfl

theorem lastVal_mk_author (u hs c us d : String) :
    lastVal "Author" (mkFields u hs c us d) = some u := rfl

theorem lastVal_mk_time (u hs c us d : String) :
    lastVal "Time" (mkFields u hs c us d) = some hs := rfl

theorem lastVal_mk_office (u hs c us d : String) :
    lastVal "Office" (mkFields u hs c us d) = some c := rfl

theorem lastVal_mk_url (u hs c us d : String) :
    lastVal "URL" (mkFields u hs c us d) = some us := rfl

theorem lastVal_mk_description (u hs c us d : String) :
    lastVal "Description" (mkFields u hs c us d) = some d := rfl

/-! ### The claims -/

/-- C1: round-trip of the field codec. For every record with non-empty
username, hours in `1..=32767` (the positive `i16` range), a `url`
obtained from `Url::parse` whose scheme starts with `"http"`, and
arbitrary country and description, decoding the field list produced by
encoding the record succeeds and yields the original record; and
encoding produces exactly the five `(title, value)` pairs in the fixed
order Author, Time, Office, URL, Description, with hours rendered as its
decimal string and url as its canonical string. -/
theorem claim1_roundtrip (r : OpenSourceAttachment)
    (_hname : ¬(r.username = ""))
    (hpos : 0 < r.number_of_hours) (hrange : r.number_of_hours ≤ 32767)
    (hurl : ∃ s, Url.parse s = some r.url)
    (_hscheme : strStartsWith r.url.scheme "http" = true) :
    tryFromFields (encodeFields r) = .ok r ∧
    encodeFields r = [⟨some "Author", some r.username, some true⟩,
      ⟨some "Time", some (intToDecimal r.number_of_hours), some true⟩,
      ⟨some "Office", some r.country, some true⟩,
      ⟨some "URL", some r.url.toString, some true⟩,
      ⟨some "Description", some r.description, some false⟩] := by
  obtain ⟨s, hs⟩ := hurl
  refine ⟨?_, rfl⟩
  rw [tryFromFields_char _ (encode_all_recognized r),
    lastVal_encode_author, lastVal_encode_time, lastVal_encode_office,
    lastVal_encode_url, lastVal_encode_description]
  rw [show slotH (.error .missingHours) (some (intToDecimal r.number_of_hours))
      = hoursOf (intToDecimal r.number_of_hours) from rfl,
    hoursOf_some (parseI16_intToDecimal r.number_of_hours hpos hrange)]
  rw [show slotU (.error .missingUrl) (some r.url.toString) = urlOf r.url.toString from rfl,
    urlOf_some (by rw [trimAngles_toString hs, parse_toString hs])]
  rfl

/-- C1 witness: a concrete valid record round-trips. -/
theorem claim1_roundtrip_witness :
    tryFromFields (encodeFields ⟨"alice", 2, "Germany", ⟨"https", "//x.com"⟩, "desc"⟩)
      = .ok ⟨"alice", 2, "Germany", ⟨"https", "//x.com"⟩, "desc"⟩ :=
  (claim1_roundtrip ⟨"alice", 2, "Germany", ⟨"https", "//x.com"⟩, "desc"⟩
    (by decide) (by decide) (by decide)
    ⟨"https://x.com", by decide⟩ (by decide)).1

/-- C2 counterexample: for the unparseable hours string `"abc"` the
validator fails with the internal-error kind carrying the context message
"number_of_hours is not an i16", which is not the claimed field-tagged
validation error with message "not a valid integer". -/
theorem claim2_counterexample :
    validateSubmission "abc" "https://x.com" "d" "DE" "alice"
      = .error (.internalServerError "number_of_hours is not an i16") ∧
    ¬(AppError.internalServerError "number_of_hours is not an i16"
      = .inputValidationError "number_of_hours" "not a valid integer") := by
  exact ⟨by decide, by decide⟩

/-- C2 amended: for every submission whose number_of_hours string does not
parse as an `i16`, the validator fails with the internal-error kind
(`InternalServerError`, via the blanket `From<anyhow::Error>` conversion)
carrying the context "number_of_hours is not an i16" — not with the
field-tagged validation kind. -/
theorem claim2_amended (s url d c u : String) (h : parseI16 s = none) :
    validateSubmission s url d c u
      = .error (.internalServerError "number_of_hours is not an i16") := by
  unfold validateSubmission
  rw [h]

/-- C2 amended witness: the concrete hours string `"abc"`. -/
theorem claim2_amended_witness :
    validateSubmission "abc" "ftp://y" "x" "FR" "bob"
      = .error (.internalServerError "number_of_hours is not an i16") :=
  claim2_amended "abc" "ftp://y" "x" "FR" "bob" (by decide)

/-- C3 counterexample: the URL value `"<<https://example.com>>"` refutes
the "exactly one leading and trailing bracket" reading: stripping exactly
one bracket pair leaves `"<https://example.com>"`, which does not parse
as a URI (so decoding would fail), yet the decoder succeeds on this value
because it strips every leading `<` and trailing `>`. -/
theorem claim3_counterexample :
    stripOneAngle "<<https://example.com>>" = "<https://example.com>" ∧
    Url.parse "<https://example.com>" = none ∧
    tryFromFields (mkFields "alice" "2" "DE" "<<https://example.com>>" "d")
      = .ok ⟨"alice", 2, "DE", ⟨"https", "//example.com"⟩, "d"⟩ := by
  exact ⟨by decide, by decide, by decide⟩

/-- C3 amended: during decode a `"URL"` field value is stripped of all
leading `'<'` characters and all trailing `'>'` characters before being
parsed as a URI (`trim_start_matches` / `trim_end_matches` strip every
occurrence); in particular the value `"<https://example.com>"` decodes
successfully to the URL `https://example.com`. -/
theorem claim3_amended (u hs c us d : String) (n : Int) (hn : parseI16 hs = some n) :
    tryFromFields (mkFields u hs c us d)
      = (match Url.parse (trimAngles us) with
         | some purl => .ok ⟨u, n, c, purl, d⟩
         | none => .error (.badUrl us)) ∧
    tryFromFields (mkFields "alice" "1" "DE" "<https://example.com>" "d")
      = .ok ⟨"alice", 1, "DE", ⟨"https", "//example.com"⟩, "d"⟩ ∧
    Url.parse "https://example.com" = some ⟨"https", "//example.com"⟩ := by
  refine ⟨?_, by decide, by decide⟩
  rw [tryFromFields_char _ (mk_all_recognized u hs c us d),
    lastVal_mk_author, lastVal_mk_time, lastVal_mk_office,
    lastVal_mk_url, lastVal_mk_description]
  rw [show slotH (.error .missingHours) (some hs) = hoursOf hs from rfl, hoursOf_some hn]
  rw [show slotU (.error .missingUrl) (some us) = urlOf us from rfl]
  unfold urlOf
  rcases hp : Url.parse (trimAngles us) with _ | purl <;> rfl

/-- C3 amended witness: the doubly bracketed value, where all-strip and
one-strip differ. -/
theorem claim3_amended_witness :
    tryFromFields (mkFields "a" "2" "c" "<<https://example.com>>" "d")
      = (match Url.parse (trimAngles "<<https://example.com>>") with
         | some purl => .ok ⟨"a", 2, "c", purl, "d"⟩
         | none => .error (.badUrl "<<https://example.com>>")) :=
  (claim3_amended "a" "2" "c" "<<https://example.com>>" "d" 2 (by decide)).1

/-- C4: for every submission whose hours string parses as the integer
`n`: if `n ≤ 0` the validator fails with
InputValidation("number_of_hours", "Number of hours must be greater than
0"); if `n > 0` the hours check passes and, with a URL that parses and
has an http-prefixed scheme, validation returns the record with hours
`n`. -/
theorem claim4_hours_validation (s : String) (n : Int) (h : parseI16 s = some n)
    (us d c u : String) :
    (n ≤ 0 → validateSubmission s us d c u
      = .error (.inputValidationError "number_of_hours"
          "Number of hours must be greater than 0")) ∧
    (0 < n → ∀ purl, Url.parse us = some purl →
      strStartsWith purl.scheme "http" = true →
      validateSubmission s us d c u = .ok ⟨u, n, c, purl, d⟩) := by
  constructor
  · intro hn
    unfold validateSubmission
    rw [h]
    show (if n ≤ 0 then _ else _) = _
    rw [if_pos hn]
  · intro hn purl hp hsch
    unfold validateSubmission
    rw [h]
    show (if n ≤ 0 then _ else _) = _
    rw [if_neg (by omega), hp]
    show (if strStartsWith purl.scheme "http" = true then _ else _) = _
    rw [if_pos hsch]

/-- C4 witness: hours `"0"` is rejected and hours `"1"` is accepted with
a valid https URL. -/
theorem claim4_hours_validation_witness :
    validateSubmission "0" "https://x.com" "d" "DE" "alice"
      = .error (.inputValidationError "number_of_hours"
          "Number of hours must be greater than 0") ∧
    validateSubmission "1" "https://x.com" "d" "DE" "alice"
      = .ok ⟨"alice", 1, "DE", ⟨"https", "//x.com"⟩, "d"⟩ :=
  ⟨(claim4_hours_validation "0" 0 (by decide) "https://x.com" "d" "DE" "alice").1
      (by decide),
   (claim4_hours_validation "1" 1 (by decide) "https://x.com" "d" "DE" "alice").2
      (by decide) ⟨"https", "//x.com"⟩ (by decide) (by decide)⟩

/-- C5: with valid hours, a URL string that does not parse is rejected
with InputValidation("url", "Not a valid URL"); one that parses with a
scheme not starting with "http" is rejected with InputValidation("url",
"URL should point to an HTTP or HTTPS resource"); `http://x.com` and
`https://x.com` are accepted and `ftp://x.com` is rejected with field
`url`. -/
theorem claim5_url_validation (s : String) (n : Int) (hpn : parseI16 s = some n)
    (hn : 0 < n) (d c u : String) :
    (∀ us, Url.parse us = none →
      validateSubmission s us d c u
        = .error (.inputValidationError "url" "Not a valid URL")) ∧
    (∀ us purl, Url.parse us = some purl → strStartsWith purl.scheme "http" = false →
      validateSubmission s us d c u
        = .error (.inputValidationError "url"
            "URL should point to an HTTP or HTTPS resource")) ∧
    validateSubmission s "http://x.com" d c u = .ok ⟨u, n, c, ⟨"http", "//x.com"⟩, d⟩ ∧
    validateSubmission s "https://x.com" d c u = .ok ⟨u, n, c, ⟨"https", "//x.com"⟩, d⟩ ∧
    validateSubmission s "ftp://x.com" d c u
      = .error (.inputValidationError "url"
          "URL should point to an HTTP or HTTPS resource") := by
  refine ⟨?_, ?_, ?_, ?_, ?_⟩
  · intro us hus
    unfold validateSubmission
    rw [hpn]
    show (if n ≤ 0 then _ else _) = _
    rw [if_neg (by omega), hus]
  · intro us purl hus hsch
    unfold validateSubmission
    rw [hpn]
    show (if n ≤ 0 then _ else _) = _
    rw [if_neg (by omega), hus]
    show (if strStartsWith purl.scheme "http" = true then _ else _) = _
    rw [if_neg (by rw [hsch]; exact Bool.false_ne_true)]
  · unfold validateSubmission
    rw [hpn]
    show (if n ≤ 0 then _ else _) = _
    rw [if_neg (by omega),
      show Url.parse "http://x.com" = some ⟨"http", "//x.com"⟩ from by decide]
    rfl
  · unfold validateSubmission
    rw [hpn]
    show (if n ≤ 0 then _ else _) = _
    rw [if_neg (by omega),
      show Url.parse "https://x.com" = some ⟨"https", "//x.com"⟩ from by decide]
    rfl
  · unfold validateSubmission
    rw [hpn]
    show (if n ≤ 0 then _ else _) = _
    rw [if_neg (by omega),
      show Url.parse "ftp://x.com" = some ⟨"ftp", "//x.com"⟩ from by decide]
    rfl

/-- C5 witness: the claim instantiated at hours `"2"`, including the
rejection of a malformed URI. -/
theorem claim5_url_validation_witness :
    validateSubmission "2" "not a url" "d" "DE" "alice"
      = .error (.inputValidationError "url" "Not a valid URL") ∧
    validateSubmission "2" "ftp://x.com" "d" "DE" "alice"
      = .error (.inputValidationError "url"
          "URL should point to an HTTP or HTTPS resource") ∧
    validateSubmission "2" "https://x.com" "d" "DE" "alice"
      = .ok ⟨"alice", 2, "DE", ⟨"https", "//x.com"⟩, "d"⟩ :=
  ⟨(claim5_url_validation "2" 2 (by decide) (by decide) "d" "DE" "alice").1
      "not a url" (by decide),
   (claim5_url_validation "2" 2 (by decide) (by decide) "d" "DE" "alice").2.2.2.2,
   (claim5_url_validation "2" 2 (by decide) (by decide) "d" "DE" "alice").2.2.2.1⟩

theorem timeOk_extract {fields : List FieldObject} {t : String}
    (hT : (match lastVal "Time" fields with
           | some v => (parseI16 v).isSome
           | none => true) = true)
    (hTs : lastVal "Time" fields = some t) : ∃ m, parseI16 t = some m := by
  rw [hTs] at hT
  have hT' : (parseI16 t).isSome = true := hT
  rcases hpt : parseI16 t with _ | m
  · rw [hpt] at hT'
    simp at hT'
  · exact ⟨m, rfl⟩

theorem urlOk_extract {fields : List FieldObject} {v : String}
    (hU : (match lastVal "URL" fields with
           | some w => (Url.parse (trimAngles w)).isSome
           | none => true) = true)
    (hUs : lastVal "URL" fields = some v) :
    ∃ purl, Url.parse (trimAngles v) = some purl := by
  rw [hUs] at hU
  have hU' : (Url.parse (trimAngles v)).isSome = true := hU
  rcases hpu : Url.parse (trimAngles v) with _ | purl
  · rw [hpu] at hU'
    simp at hU'
  · exact ⟨purl, rfl⟩

/-- C6: every field list containing a pair with both title and value
present whose title is outside the recognized set fails to decode with an
"unknown field" error (for some unrecognized title — the first one the
loop reaches), regardless of the remaining fields. -/
theorem claim6_unknown_title (fields : List FieldObject)
    (h : fields.any fieldUnknown = true) :
    ∃ t, (t = "Author" || t = "Time" || t = "Office" || t = "URL"
        || t = "Description") = false
      ∧ tryFromFields fields = .error (.unknownField t) := by
  obtain ⟨t, ht, heq⟩ := foldlM_stepField_unknown fields initState h
  refine ⟨t, ht, ?_⟩
  rw [tryFromFields_eq_bind, heq]
  rfl

/-- C6 witness: a field list with all five recognized fields populated
plus a `"Bogus"` field still fails to decode. -/
theorem claim6_unknown_title_witness :
    ∃ t, (t = "Author" || t = "Time" || t = "Office" || t = "URL"
        || t = "Description") = false
      ∧ tryFromFields [⟨some "Author", some "alice", some true⟩,
          ⟨some "Time", some "2", some true⟩,
          ⟨some "Office", some "DE", some true⟩,
          ⟨some "URL", some "https://x.com", some true⟩,
          ⟨some "Description", some "d", some false⟩,
          ⟨some "Bogus", some "x", none⟩]
        = .error (.unknownField t) :=
  claim6_unknown_title _ (by decide)

/-- C7 counterexample: two field lists refute "reports the first missing
field in the fixed order". First, with Author present, Time present but
unparseable, URL and Description present and Office missing, the first
never-populated field is country, yet decoding reports the stored hours
parse error instead. Second, a list with a single unknown-titled pair has
all five fields missing, yet decoding reports the unknown field, not the
missing username. -/
theorem claim7_counterexample :
    tryFromFields [⟨some "Author", some "alice", some true⟩,
      ⟨some "Time", some "abc", some true⟩,
      ⟨some "URL", some "https://x.com", some true⟩,
      ⟨some "Description", some "d", some false⟩]
      = .error (.badHours "abc") ∧
    ¬(DecodeErr.badHours "abc" = .missingCountry) ∧
    lastVal "Office" [⟨some "Author", some "alice", some true⟩,
      ⟨some "Time", some "abc", some true⟩,
      ⟨some "URL", some "https://x.com", some true⟩,
      ⟨some "Description", some "d", some false⟩] = none ∧
    tryFromFields [⟨some "Bogus", some "x", some true⟩]
      = .error (.unknownField "Bogus") ∧
    ¬(DecodeErr.unknownField "Bogus" = .missingUsername) := by
  exact ⟨by decide, by decide, by decide, by decide, by decide⟩

/-- C7 amended: field pairs with an absent title or value are skipped
without affecting the decode result; and for every field list whose
present titles are all recognized and whose `"Time"`/`"URL"` values all
parse, if a required field was never populated, decoding fails and
reports the first never-populated field in the fixed order username,
hours, country, url, description. (The original claim is amended by the
side conditions: a stored hours/url parse failure or an unknown title is
reported in preference to a later missing field.) -/
theorem claim7_amended :
    (∀ (pre post : List FieldObject) (f : FieldObject),
      f.title = none ∨ f.value = none →
      tryFromFields (pre ++ f :: post) = tryFromFields (pre ++ post)) ∧
    (∀ fields : List FieldObject, fields.all fieldRecognized = true →
      (match lastVal "Time" fields with
       | some v => (parseI16 v).isSome
       | none => true) = true →
      (match lastVal "URL" fields with
       | some w => (Url.parse (trimAngles w)).isSome
       | none => true) = true →
      (lastVal "Author" fields = none →
        tryFromFields fields = .error .missingUsername) ∧
      (∀ a, lastVal "Author" fields = some a → lastVal "Time" fields = none →
        tryFromFields fields = .error .missingHours) ∧
      (∀ a t, lastVal "Author" fields = some a → lastVal "Time" fields = some t →
        lastVal "Office" fields = none →
        tryFromFields fields = .error .missingCountry) ∧
      (∀ a t o, lastVal "Author" fields = some a → lastVal "Time" fields = some t →
        lastVal "Office" fields = some o → lastVal "URL" fields = none →
        tryFromFields fields = .error .missingUrl) ∧
      (∀ a t o v, lastVal "Author" fields = some a → lastVal "Time" fields = some t →
        lastVal "Office" fields = some o → lastVal "URL" fields = some v →
        lastVal "Description" fields = none →
        tryFromFields fields = .error .missingDescription)) := by
  constructor
  · intro pre post f hf
    rw [tryFromFields_eq_bind, tryFromFields_eq_bind,
      foldlM_append_step, foldlM_append_step]
    congr 1
    congr 1
    funext st
    rw [foldlM_cons_eq, stepField_skip st f hf, ok_bind]
  · intro fields hall hT hU
    refine ⟨?_, ?_, ?_, ?_, ?_⟩
    · intro hA
      rw [tryFromFields_char _ hall, hA]
      rfl
    · intro a hA hTn
      rw [tryFromFields_char _ hall, hA, hTn]
      rfl
    · intro a t hA hTs hOn
      obtain ⟨m, hm⟩ := timeOk_extract hT hTs
      rw [tryFromFields_char _ hall, hA, hTs, hOn,
        show slotH (.error .missingHours) (some t) = hoursOf t from rfl,
        hoursOf_some hm]
      rfl
    · intro a t o hA hTs hOs hUn
      obtain ⟨m, hm⟩ := timeOk_extract hT hTs
      rw [tryFromFields_char _ hall, hA, hTs, hOs, hUn,
        show slotH (.error .missingHours) (some t) = hoursOf t from rfl,
        hoursOf_some hm]
      rfl
    · intro a t o v hA hTs hOs hUs hDn
      obtain ⟨m, hm⟩ := timeOk_extract hT hTs
      obtain ⟨purl, hw⟩ := urlOk_extract hU hUs
      rw [tryFromFields_char _ hall, hA, hTs, hOs, hUs, hDn,
        show slotH (.error .missingHours) (some t) = hoursOf t from rfl,
        hoursOf_some hm,
        show slotU (.error .missingUrl) (some v) = urlOf v from rfl,
        urlOf_some hw]
      rfl

/-- C7 amended witness: a skipped titleless pair, and a list without a
`"Time"` entry whose decode reports the missing hours. -/
theorem claim7_amended_witness :
    tryFromFields ([⟨some "Author", some "alice", some true⟩]
        ++ ⟨none, some "x", none⟩ :: [⟨some "Time", some "2", some true⟩])
      = tryFromFields ([⟨some "Author", some "alice", some true⟩]
        ++ [⟨some "Time", some "2", some true⟩]) ∧
    tryFromFields [⟨some "Author", some "alice", some true⟩,
      ⟨some "Office", some "DE", some true⟩,
      ⟨some "URL", some "https://x.com", some true⟩,
      ⟨some "Description", some "d", some false⟩]
      = .error .missingHours :=
  ⟨claim7_amended.1 [⟨some "Author", some "alice", some true⟩]
      [⟨some "Time", some "2", some true⟩] ⟨none, some "x", none⟩ (Or.inl rfl),
   (claim7_amended.2 [⟨some "Author", some "alice", some true⟩,
        ⟨some "Office", some "DE", some true⟩,
        ⟨some "URL", some "https://x.com", some true⟩,
        ⟨some "Description", some "d", some false⟩]
      (by decide) (by decide) (by decide)).2.1 "alice" (by decide) (by decide)⟩

/-- C8: over any message sequence the aggregator returns the mapping
assigning to each username the sum — taken with the program's 16-bit
addition, see C10 — of the hours of all successfully decoded attachment
field lists for that username, in order; usernames with no decoded entry
are absent; messages and attachments without field lists and entries
that fail to decode contribute nothing and do not abort the rest; the
empty sequence yields the empty mapping; and three decodable entries for
"alice" with hours 2, 3, 5 plus one undecodable entry yield exactly
`{"alice": 10}`. -/
theorem claim8_aggregator :
    (∀ (msgs : List SlackMessage) (u : String),
      statsGet (aggregate msgs) u
        = if userHoursList u msgs = [] then none
          else some (userTotal u msgs)) ∧
    aggregate [] = [] ∧
    aggregate [⟨some [⟨some (mkFields "alice" "2" "DE" "https://x.com" "d")⟩,
        ⟨none⟩,
        ⟨some (mkFields "alice" "3" "DE" "https://x.com" "d")⟩,
        ⟨some (mkFields "alice" "5" "DE" "https://x.com" "d")⟩]⟩]
      = [("alice", 10)] := by
  refine ⟨?_, rfl, by decide⟩
  intro msgs u
  rw [show aggregate msgs
      = msgs.foldl (fun hours msg => (entriesOfMessage msg).foldl foldEntry hours) []
      from rfl,
    aggregate_eq_allEntries msgs [], foldEntry_get (allEntries msgs) [] u]
  rfl

/-- C9: decoding does not re-apply the write-path business rules. For
every field list whose present titles are all recognized, in which all
five fields are populated, whose last `"Time"` value parses as any
integer `n` (including zero and negatives) and whose last `"URL"` value
parses (after bracket stripping) as a URI of any scheme, decoding
succeeds and returns the record with exactly those values. -/
theorem claim9_decode_as_is (fields : List FieldObject)
    (hall : fields.all fieldRecognized = true)
    (u hs c us d : String) (n : Int) (purl : Url)
    (hA : lastVal "Author" fields = some u)
    (hTs : lastVal "Time" fields = some hs)
    (hn : parseI16 hs = some n)
    (hO : lastVal "Office" fields = some c)
    (hUs : lastVal "URL" fields = some us)
    (hw : Url.parse (trimAngles us) = some purl)
    (hD : lastVal "Description" fields = some d) :
    tryFromFields fields = .ok ⟨u, n, c, purl, d⟩ := by
  rw [tryFromFields_char _ hall, hA, hTs, hO, hUs, hD,
    show slotH (.error .missingHours) (some hs) = hoursOf hs from rfl,
    hoursOf_some hn,
    show slotU (.error .missingUrl) (some us) = urlOf us from rfl,
    urlOf_some hw]
  rfl

/-- C9 witness: a record with hours `-5` and an `ftp` URL decodes as-is,
even though the submission validator would reject both. -/
theorem claim9_decode_as_is_witness :
    tryFromFields (mkFields "alice" "-5" "DE" "ftp://x.com" "d")
      = .ok ⟨"alice", -5, "DE", ⟨"ftp", "//x.com"⟩, "d"⟩ :=
  claim9_decode_as_is (mkFields "alice" "-5" "DE" "ftp://x.com" "d")
    (by decide) "alice" "-5" "DE" "ftp://x.com" "d" (-5) ⟨"ftp", "//x.com"⟩
    (by decide) (by decide) (by decide) (by decide) (by decide) (by decide) (by decide)

/-- C10: hours arithmetic is 16-bit throughout. `"40000"` is a valid
signed integer but fails the `i16` parse; every hours string that fails
the `i16` parse is rejected by the decoder (as a stored hours-parse
error) and by the submission validator; each entry with hours `11000` is
individually valid, yet aggregating three of them for `"alice"` yields
the wrapped 16-bit value `-32536` instead of the exact sum `33000`. -/
theorem claim10_i16_arithmetic :
    parseSignDigits "40000" = some 40000 ∧
    parseI16 "40000" = none ∧
    (∀ s u c us d, parseI16 s = none →
      tryFromFields (mkFields u s c us d) = .error (.badHours s)) ∧
    (∀ s us d c u, parseI16 s = none →
      validateSubmission s us d c u
        = .error (.internalServerError "number_of_hours is not an i16")) ∧
    tryFromFields (mkFields "alice" "11000" "DE" "https://x.com" "d")
      = .ok ⟨"alice", 11000, "DE", ⟨"https", "//x.com"⟩, "d"⟩ ∧
    statsGet (aggregate [⟨some [⟨some (mkFields "alice" "11000" "DE" "https://x.com" "d")⟩,
        ⟨some (mkFields "alice" "11000" "DE" "https://x.com" "d")⟩,
        ⟨some (mkFields "alice" "11000" "DE" "https://x.com" "d")⟩]⟩]) "alice"
      = some (-32536) ∧
    (11000 : Int) + 11000 + 11000 = 33000 ∧
    ¬((-32536 : Int) = 33000) := by
  refine ⟨by decide, by decide, ?_, ?_, by decide, by decide, by decide, by decide⟩
  · intro s u c us d h
    rw [tryFromFields_char _ (mk_all_recognized u s c us d),
      lastVal_mk_author, lastVal_mk_time,
      show slotH (.error .missingHours) (some s) = hoursOf s from rfl,
      hoursOf_none h]
    rfl
  · intro s us d c u h
    unfold validateSubmission
    rw [h]

/-- C10 witness: the universally quantified rejection parts instantiated
at `"40000"`. -/
theorem claim10_i16_arithmetic_witness :
    tryFromFields (mkFields "alice" "40000" "DE" "https://x.com" "d")
      = .error (.badHours "40000") ∧
    validateSubmission "40000" "https://x.com" "d" "DE" "alice"
      = .error (.internalServerError "number_of_hours is not an i16") :=
  ⟨claim10_i16_arithmetic.2.2.1 "40000" "alice" "DE" "https://x.com" "d" (by decide),
   claim10_i16_arithmetic.2.2.2.1 "40000" "https://x.com" "d" "DE" "alice" (by decide)⟩

end Woss
